import Mathlib

/-!
Shallow embedding of the MindMap game-session core
(src/frontend/src/components/GameScreen.tsx, Gameboard.tsx).

JS numbers are modelled as real numbers for layout coordinates (the layout
uses Math.cos/Math.sin, idealised here by Real.cos/Real.sin) and as rational
numbers for clock arithmetic (timestamps and durations, where only field
arithmetic and max/rounding occur, keeping everything decidable).
Math.random() is modelled as an explicit stream `rand : Nat → ℝ` consumed
one value per call, in call order.  JS truthiness on optional strings and
numbers is modelled explicitly (null/undefined/""/0 are falsy).
-/

namespace MindMap

/-- Node shape received from the backend (interface BackendWordNode):
no position yet.  `parent_id?: string | null` is modelled as Option String
(undefined and null are indistinguishable in the code under study). -/
structure BackendWordNode where
  id : String
  word : String
  parent_id : Option String
  deriving DecidableEq, Repr

/-- Frontend node shape (interface WordNode): backend fields plus a 2D position. -/
structure WordNode where
  id : String
  word : String
  parent_id : Option String
  x : ℝ
  y : ℝ

/-- JS truthiness of an optional string: null/undefined and the empty string
are falsy (`!n.parent_id`). -/
def jsFalsyStr : Option String → Bool
  | none => true
  | some s => s.isEmpty

/-- JS `String.prototype.trim()`: strips leading and trailing whitespace.
Implemented structurally over the character list so that it evaluates by
kernel reduction (Lean's own String.trim does not). -/
def jsTrim (s : String) : String :=
  ⟨((s.data.dropWhile Char.isWhitespace).reverse.dropWhile Char.isWhitespace).reverse⟩

/-- Strict equality `n.parent_id === nodeId` between `string | null | undefined`
and a string: null/undefined never equal a string. -/
def parentEq : Option String → String → Bool
  | none, _ => false
  | some s, id => s == id

/-- Constant NODE_OFFSET_X from GameScreen.tsx. -/
def NODE_OFFSET_X : ℝ := 100
/-- Constant NODE_OFFSET_Y from GameScreen.tsx. -/
def NODE_OFFSET_Y : ℝ := 50
/-- Constant NODE_AREA_WIDTH from GameScreen.tsx. -/
def NODE_AREA_WIDTH : ℝ := 500
/-- Constant NODE_AREA_HEIGHT from GameScreen.tsx. -/
def NODE_AREA_HEIGHT : ℝ := 400

/-- One entry of the BFS work queue:
`{ nodeId, parentX, parentY, depth }` in assignPositionsToNodes. -/
structure QEntry where
  nodeId : String
  parentX : ℝ
  parentY : ℝ
  depth : Nat

/-- The horizontal child offset computed in the BFS child loop:
`Math.cos(angle) * NODE_OFFSET_X * (depth + 1) * 0.5` with
`angle = (Math.PI / (childrenCount + 1)) * (childIndex + 1)`. -/
noncomputable def childOffsetX (childrenCount childIndex depth : Nat) : ℝ :=
  Real.cos ((Real.pi / ((childrenCount : ℝ) + 1)) * ((childIndex : ℝ) + 1)) *
    NODE_OFFSET_X * ((depth : ℝ) + 1) * 0.5

/-- The vertical child offset computed in the BFS child loop:
`Math.sin(angle) * NODE_OFFSET_Y * (1.5)` with the same angle. -/
noncomputable def childOffsetY (childrenCount childIndex : Nat) : ℝ :=
  Real.sin ((Real.pi / ((childrenCount : ℝ) + 1)) * ((childIndex : ℝ) + 1)) *
    NODE_OFFSET_Y * 1.5

/-- The inner `for (const child of children)` loop of assignPositionsToNodes.
Arguments mirror the captured JS locals: `childrenCount = children.length`,
the dequeued entry's depth and coordinates, the remaining children,
`childIndex` (advanced only for children not yet in `assigned`), and the
accumulated `positionedNodes` (in record-insertion order), `assigned` set and
queue pushes.  A child already in `assigned` is skipped; otherwise its entry
stores the existing position when available, while the queue push always
carries the freshly computed childX/childY. -/
noncomputable def processChildren (existingNodes : String → Option WordNode) (childrenCount : Nat)
    (depth : Nat) (parentX parentY : ℝ) :
    List BackendWordNode → Nat → List WordNode → Finset String → List QEntry →
    List WordNode × Finset String × List QEntry
  | [], _, pos, asg, qAdd => (pos, asg, qAdd)
  | child :: rest, childIndex, pos, asg, qAdd =>
    if child.id ∈ asg then
      processChildren existingNodes childrenCount depth parentX parentY rest childIndex pos asg qAdd
    else
      let childX : ℝ := parentX + childOffsetX childrenCount childIndex depth
      let childY : ℝ := parentY + childOffsetY childrenCount childIndex
      let entry : WordNode :=
        { id := child.id, word := child.word, parent_id := child.parent_id,
          x := match existingNodes child.id with
               | some w => w.x
               | none => childX,
          y := match existingNodes child.id with
               | some w => w.y
               | none => childY }
      processChildren existingNodes childrenCount depth parentX parentY rest (childIndex + 1)
        (pos ++ [entry]) (insert child.id asg)
        (qAdd ++ [⟨child.id, childX, childY, depth + 1⟩])

/-- The `while (head < queue.length)` BFS loop of assignPositionsToNodes.
The JS loop always terminates (each iteration consumes one queue entry and
pushes only entries for nodes newly added to `assigned`); it is embedded with
an explicit fuel parameter, and `bfsLoopF_fuel_stable` below shows the result
is the loop's fixpoint for any fuel at least `2 * |ids| + |queue|`, in
particular for the bound `2 * nodes.length + 1` used by assignPositionsToNodes. -/
noncomputable def bfsLoopF (nodes : List BackendWordNode) (existingNodes : String → Option WordNode) :
    Nat → List QEntry → List WordNode → Finset String →
    List WordNode × Finset String
  | _, [], pos, asg => (pos, asg)
  | 0, _ :: _, pos, asg => (pos, asg)
  | fuel + 1, e :: rest, pos, asg =>
    let children := nodes.filter fun n => parentEq n.parent_id e.nodeId
    let r := processChildren existingNodes children.length e.depth e.parentX e.parentY
      children 0 pos asg []
    bfsLoopF nodes existingNodes fuel (rest ++ r.2.2) r.1 r.2.1

/-- The final `for (const node of nodesToProcess)` loop of assignPositionsToNodes:
any node missed by the BFS keeps its existing position when available and is
otherwise placed at `Math.random()`-scaled coordinates (x drawn before y);
`k` is the index of the next unconsumed value of the random stream. -/
noncomputable def missedLoop (existingNodes : String → Option WordNode) (rand : Nat → ℝ) :
    List BackendWordNode → List WordNode → Finset String → Nat → List WordNode
  | [], pos, _, _ => pos
  | n :: ns, pos, asg, k =>
    if n.id ∈ asg then
      missedLoop existingNodes rand ns pos asg k
    else
      match existingNodes n.id with
      | some w =>
        missedLoop existingNodes rand ns
          (pos ++ [{ id := n.id, word := n.word, parent_id := n.parent_id, x := w.x, y := w.y }])
          (insert n.id asg) k
      | none =>
        missedLoop existingNodes rand ns
          (pos ++ [{ id := n.id, word := n.word, parent_id := n.parent_id,
                     x := rand k * NODE_AREA_WIDTH, y := rand (k + 1) * NODE_AREA_HEIGHT }])
          (insert n.id asg) (k + 2)

/-- Fallback path of assignPositionsToNodes when no root is found:
every node in turn keeps its existing position when available and is otherwise
placed at `(currentX, 50)` with currentX starting at 50 and advancing by 100
per node (currentY is never incremented in the source). -/
noncomputable def noRootLoop (existingNodes : String → Option WordNode) :
    List BackendWordNode → ℝ → List WordNode
  | [], _ => []
  | n :: ns, currentX =>
    { id := n.id, word := n.word, parent_id := n.parent_id,
      x := match existingNodes n.id with
           | some w => w.x
           | none => currentX,
      y := match existingNodes n.id with
           | some w => w.y
           | none => 50 } :: noRootLoop existingNodes ns (currentX + 100)

/-- The root's positioned entry `{...rootNodeBackend, x: rootX, y: rootY}`:
the root is placed at the fixed anchor (NODE_AREA_WIDTH / 2, 50) without
consulting existingNodes. -/
noncomputable def rootEntry (r : BackendWordNode) : WordNode :=
  { id := r.id, word := r.word, parent_id := r.parent_id, x := NODE_AREA_WIDTH / 2, y := 50 }

/-- Embedding of assignPositionsToNodes (GameScreen.tsx lines 65-146).
`backendNodes` is `Object.values(backendNodes)` in enumeration order,
`existingNodes` is record lookup in the optional second argument, and `rand`
is the Math.random() stream.  The root (the first node with falsy parent_id)
is placed at the fixed anchor `(NODE_AREA_WIDTH / 2, 50)` without consulting
existingNodes; positioned nodes are returned in record-insertion order. -/
noncomputable def assignPositionsToNodes (backendNodes : List BackendWordNode)
    (existingNodes : String → Option WordNode) (rand : Nat → ℝ) : List WordNode :=
  let nodesToProcess := backendNodes
  match nodesToProcess.find? (fun n => jsFalsyStr n.parent_id) with
  | none => noRootLoop existingNodes nodesToProcess 50
  | some rootNodeBackend =>
    let rootX : ℝ := NODE_AREA_WIDTH / 2
    let rootY : ℝ := 50
    let pos0 : List WordNode := [rootEntry rootNodeBackend]
    let asg0 : Finset String := {rootNodeBackend.id}
    let q0 : List QEntry := [⟨rootNodeBackend.id, rootX, rootY, 0⟩]
    let r := bfsLoopF nodesToProcess existingNodes (2 * nodesToProcess.length + 1) q0 pos0 asg0
    missedLoop existingNodes rand nodesToProcess r.1 r.2 0

/-- Record lookup `positionedNodes[id]` on the returned node list: the record
never receives two writes to the same key (every write is guarded by the
`assigned` set), so the first entry with the given id is the record's value. -/
def lookupNode (pos : List WordNode) (id : String) : Option WordNode :=
  pos.find? fun w => w.id == id

/-- Collinearity of three points in the plane, expressed by a vanishing cross
product of the difference vectors. -/
def collinear3 (p q r : ℝ × ℝ) : Prop :=
  (q.1 - p.1) * (r.2 - p.2) - (q.2 - p.2) * (r.1 - p.1) = 0

/-- Frontend game state (interface GameState, GameScreen.tsx lines 13-24).
Presentation-only component state (isLoading, hasLoaded, the map container
ref) is outside this model. -/
structure GameState where
  game_id : String
  puzzle_id : String
  start_word : String
  theme : String
  time_limit_seconds : ℚ
  start_time : Option ℚ
  nodes : List WordNode
  connections : List (String × String)
  score : ℚ
  is_active : Bool

/-- Backend game state (interface BackendGameState): like GameState but its
nodes carry no positions. -/
structure BackendGameState where
  game_id : String
  puzzle_id : String
  start_word : String
  theme : String
  time_limit_seconds : ℚ
  start_time : Option ℚ
  nodes : List BackendWordNode
  connections : List (String × String)
  score : ℚ
  is_active : Bool

/-- JS truthiness of an optional number: null/undefined and 0 are falsy. -/
def jsFalsyNum (x : Option ℚ) : Bool :=
  match x with
  | none => true
  | some q => decide (q = 0)

/-- JS `a || b` on an optional number against a number default:
`gameState.start_time || now` yields `now` when start_time is null/undefined/0. -/
def jsOrNum (x : Option ℚ) (dflt : ℚ) : ℚ :=
  match x with
  | none => dflt
  | some q => if q = 0 then dflt else q

/-- The two computation lines of calculateTimeLeft (GameScreen.tsx 166-168):
`elapsed = now - (gameState.start_time || now)` and
`remaining = Math.max(0, gameState.time_limit_seconds - elapsed)`. -/
def remainingTime (start_time : Option ℚ) (time_limit_seconds : ℚ) (now : ℚ) : ℚ :=
  let elapsed := now - jsOrNum start_time now
  max 0 (time_limit_seconds - elapsed)

/-- Result of one run of the timer callback: the (possibly) updated game
state, the value passed to setTimeLeft, and whether the guarded
`setGameState(is_active := false)` call fired. -/
structure TimerStepResult where
  gameState : GameState
  timeLeft : Option ℤ
  setInactiveFired : Bool

/-- The body of calculateTimeLeft (GameScreen.tsx 165-177): computes the
remaining time, stores `Math.round(remaining)` in timeLeft, and flips
is_active to false exactly when `remaining <= 0 && gameState.is_active`.
JS Math.round is round-half-up, Mathlib's `round`. -/
def calculateTimeLeft (gs : GameState) (now : ℚ) : TimerStepResult :=
  let remaining := remainingTime gs.start_time gs.time_limit_seconds now
  let fired := decide (remaining ≤ 0) && gs.is_active
  { gameState := if fired then { gs with is_active := false } else gs,
    timeLeft := some (round remaining),
    setInactiveFired := fired }

/-- One run of the timer effect (GameScreen.tsx 159-184): the guard on line
160 short-circuits (setting timeLeft to null and touching nothing else) when
the game is inactive or start_time/time_limit_seconds are falsy; otherwise
calculateTimeLeft runs.  The `!gameState` disjunct of the guard concerns the
component before any game is loaded and is outside this per-session model. -/
def timerEffect (gs : GameState) (now : ℚ) : TimerStepResult :=
  if !gs.is_active || jsFalsyNum gs.start_time || decide (gs.time_limit_seconds = 0) then
    { gameState := gs, timeLeft := none, setInactiveFired := false }
  else
    calculateTimeLeft gs now

/-- Backend response to the connect request: either a parsed updated game
state (response.ok) or an HTTP error status with its `detail` message. -/
inductive BackendResp where
  | ok (state : BackendGameState)
  | err (status : Nat) (detail : String)

/-- Result of one run of handleAddConnection: the game state handed back,
whether the POST request was issued at all, the error message state, and the
newWord input state. -/
structure ConnectResult where
  gameState : Option GameState
  requestIssued : Bool
  error : Option String
  newWord : String

/-- The guard message set by handleAddConnection when it short-circuits. -/
def guardMsg : String :=
  "Cannot add connection: Game not active, no node selected, or word is empty."

/-- Lookup in the frontend node record `gameState.nodes`. -/
def recordLookup (nodes : List WordNode) : String → Option WordNode :=
  fun id => nodes.find? fun w => w.id == id

/-- Embedding of handleAddConnection (GameScreen.tsx 225-273).  The guard
`!gameState || !selectedNodeId || !newWord.trim() || !gameState.is_active`
short-circuits with an error and no request.  Otherwise the request is issued:
on a non-ok response the thrown detail lands in the error state, and is_active
is additionally forced to false when the response is 400 "Time limit exceeded";
on ok the new backend state is adopted with positions assigned by
assignPositionsToNodes, preserving the current nodes' positions, and the
newWord input is cleared. -/
noncomputable def handleAddConnection (gameState : Option GameState)
    (selectedNodeId : Option String) (newWord : String) (resp : BackendResp)
    (rand : Nat → ℝ) : ConnectResult :=
  match gameState with
  | none => { gameState := none, requestIssued := false, error := some guardMsg, newWord := newWord }
  | some gs =>
    if jsFalsyStr selectedNodeId || (jsTrim newWord == "") || !gs.is_active then
      { gameState := some gs, requestIssued := false, error := some guardMsg, newWord := newWord }
    else
      match resp with
      | .err status detail =>
        { gameState :=
            some (if status == 400 && detail == "Time limit exceeded" then
                    { gs with is_active := false }
                  else gs),
          requestIssued := true,
          error := some (if detail == "" then "HTTP error! status: " ++ toString status else detail),
          newWord := newWord }
      | .ok updatedBackendState =>
        { gameState :=
            some { game_id := updatedBackendState.game_id,
                   puzzle_id := updatedBackendState.puzzle_id,
                   start_word := updatedBackendState.start_word,
                   theme := updatedBackendState.theme,
                   time_limit_seconds := updatedBackendState.time_limit_seconds,
                   start_time := updatedBackendState.start_time,
                   nodes := assignPositionsToNodes updatedBackendState.nodes
                     (recordLookup gs.nodes) rand,
                   connections := updatedBackendState.connections,
                   score := updatedBackendState.score,
                   is_active := updatedBackendState.is_active },
          requestIssued := true,
          error := none,
          newWord := "" }

/-- Reactflow node as used by Gameboard.tsx: id, data.label and position. -/
structure FlowNode where
  id : String
  label : String
  x : ℝ
  y : ℝ

/-- Reactflow edge as used by Gameboard.tsx. -/
structure FlowEdge where
  id : String
  source : String
  target : String

/-- Embedding of handleAddNode (Gameboard.tsx 99-137) together with the
module-level `getNodeId` counter.  The validation callback `onNodeAdded` is an
external collaborator, modelled by its boolean verdict; the two Math.random()
calls of the position computation are the parameters rand1 and rand2.
Returns (nodes, edges, moves, idCounter) after the call. -/
noncomputable def handleAddNode (nodes : List FlowNode) (edges : List FlowEdge)
    (moves : Nat) (idCounter : Nat) (isValidConnection : Bool)
    (newNodeLabel parentNodeId : String) (rand1 rand2 : ℝ) :
    List FlowNode × List FlowEdge × Nat × Nat :=
  if isValidConnection then
    let newNodeId := "node_" ++ toString (idCounter + 1)
    let position : ℝ × ℝ :=
      match nodes.find? (fun n => n.id == parentNodeId) with
      | some parentNode => (parentNode.x + (rand1 * 400 - 200), parentNode.y + 100 + rand2 * 50)
      | none => (100, 100)
    (nodes ++ [{ id := newNodeId, label := newNodeLabel, x := position.1, y := position.2 }],
     edges ++ [{ id := "edge_" ++ parentNodeId ++ "-" ++ newNodeId,
                 source := parentNodeId, target := newNodeId }],
     moves + 1, idCounter + 1)
  else
    (nodes, edges, moves, idCounter)

/-- The assigned set produced by the BFS phase of assignPositionsToNodes,
before the missed-node loop runs.  By `bfsLoopF_snd` this set does not depend
on existingNodes (or on the positioned-node accumulator), so it is defined
with the empty existing map; when no root is found the BFS never runs and
every node is handled (deterministically) by the no-root fallback, recorded
here as the full id set. -/
noncomputable def bfsAssigned (nodes : List BackendWordNode) : Finset String :=
  match nodes.find? (fun n => jsFalsyStr n.parent_id) with
  | none => (nodes.map fun n => n.id).toFinset
  | some r =>
    (bfsLoopF nodes (fun _ => none) (2 * nodes.length + 1)
      [⟨r.id, NODE_AREA_WIDTH / 2, 50, 0⟩] [rootEntry r] {r.id}).2

/-- A positioned node preserves existingNodes: whenever its id is present
there, its coordinates are the recorded ones verbatim. -/
def PreservesEx (existingNodes : String → Option WordNode) (w : WordNode) : Prop :=
  ∀ e, existingNodes w.id = some e → w.x = e.x ∧ w.y = e.y

/-- Every id in the assigned set has a corresponding entry in the positioned list. -/
def coveredBy (pos : List WordNode) (asg : Finset String) : Prop :=
  ∀ id ∈ asg, ∃ w ∈ pos, w.id = id

/-- A concrete active session used to exercise the theorems below. -/
def gsActive : GameState :=
  { game_id := "g", puzzle_id := "p", start_word := "s", theme := "t",
    time_limit_seconds := 60, start_time := some 100, nodes := [],
    connections := [], score := 0, is_active := true }

/-- A concrete inactive session used to exercise the theorems below. -/
def gsInactive : GameState :=
  { game_id := "g", puzzle_id := "p", start_word := "s", theme := "t",
    time_limit_seconds := 60, start_time := some 100, nodes := [],
    connections := [], score := 0, is_active := false }

/-! Helper lemmas about the layout loops. -/

lemma processChildren_snd (ex1 ex2 : String → Option WordNode) (n d : Nat) (px py : ℝ) :
    ∀ (cs : List BackendWordNode) (k : Nat) (pos1 pos2 : List WordNode)
      (asg : Finset String) (q : List QEntry),
      (processChildren ex1 n d px py cs k pos1 asg q).2 =
        (processChildren ex2 n d px py cs k pos2 asg q).2 := by
  intro cs
  induction cs with
  | nil => intro k pos1 pos2 asg q; rfl
  | cons c cs ih =>
    intro k pos1 pos2 asg q
    by_cases h : c.id ∈ asg
    · simp only [processChildren, if_pos h]
      exact ih k pos1 pos2 asg q
    · simp only [processChildren, if_neg h]
      exact ih (k + 1) _ _ _ _

lemma processChildren_pos_factor (ex : String → Option WordNode) (n d : Nat) (px py : ℝ) :
    ∀ (cs : List BackendWordNode) (k : Nat) (pos1 pos2 : List WordNode)
      (asg : Finset String) (q : List QEntry),
      (processChildren ex n d px py cs k (pos1 ++ pos2) asg q).1 =
        pos1 ++ (processChildren ex n d px py cs k pos2 asg q).1 := by
  intro cs
  induction cs with
  | nil => intro k pos1 pos2 asg q; rfl
  | cons c cs ih =>
    intro k pos1 pos2 asg q
    by_cases h : c.id ∈ asg
    · simp only [processChildren, if_pos h]
      exact ih k pos1 pos2 asg q
    · simp only [processChildren, if_neg h]
      rw [List.append_assoc]
      exact ih (k + 1) pos1 _ _ _

lemma processChildren_q_factor (ex : String → Option WordNode) (n d : Nat) (px py : ℝ) :
    ∀ (cs : List BackendWordNode) (k : Nat) (pos : List WordNode)
      (asg : Finset String) (q1 q2 : List QEntry),
      (processChildren ex n d px py cs k pos asg (q1 ++ q2)).2.2 =
        q1 ++ (processChildren ex n d px py cs k pos asg q2).2.2 := by
  intro cs
  induction cs with
  | nil => intro k pos asg q1 q2; rfl
  | cons c cs ih =>
    intro k pos asg q1 q2
    by_cases h : c.id ∈ asg
    · simp only [processChildren, if_pos h]
      exact ih k pos asg q1 q2
    · simp only [processChildren, if_neg h]
      rw [List.append_assoc]
      exact ih (k + 1) _ _ _ _

lemma bfsLoopF_pos_factor (nodes : List BackendWordNode) (ex : String → Option WordNode) :
    ∀ (fuel : Nat) (q : List QEntry) (pos1 pos2 : List WordNode) (asg : Finset String),
      (bfsLoopF nodes ex fuel q (pos1 ++ pos2) asg).1 =
        pos1 ++ (bfsLoopF nodes ex fuel q pos2 asg).1 := by
  intro fuel
  induction fuel with
  | zero => intro q pos1 pos2 asg; cases q <;> rfl
  | succ fuel ih =>
    intro q pos1 pos2 asg
    cases q with
    | nil => rfl
    | cons e rest =>
      simp only [bfsLoopF]
      rw [processChildren_pos_factor]
      rw [processChildren_snd ex ex _ _ _ _ _ _ (pos1 ++ pos2) pos2]
      exact ih _ _ _ _

lemma missedLoop_pos_factor (ex : String → Option WordNode) (rand : Nat → ℝ) :
    ∀ (ns : List BackendWordNode) (pos1 pos2 : List WordNode) (asg : Finset String) (k : Nat),
      missedLoop ex rand ns (pos1 ++ pos2) asg k =
        pos1 ++ missedLoop ex rand ns pos2 asg k := by
  intro ns
  induction ns with
  | nil => intro pos1 pos2 asg k; rfl
  | cons n ns ih =>
    intro pos1 pos2 asg k
    by_cases h : n.id ∈ asg
    · simp only [missedLoop, if_pos h]
      exact ih pos1 pos2 asg k
    · cases hex : ex n.id with
      | some w =>
        simp only [missedLoop, if_neg h, hex]
        rw [List.append_assoc]
        exact ih pos1 _ _ k
      | none =>
        simp only [missedLoop, if_neg h, hex]
        rw [List.append_assoc]
        exact ih pos1 _ _ _

lemma lookupNode_append_left (pos t : List WordNode) (id : String) (w : WordNode)
    (h : lookupNode pos id = some w) : lookupNode (pos ++ t) id = some w := by
  induction pos with
  | nil => simp [lookupNode] at h
  | cons a pos ih =>
    unfold lookupNode at h ih ⊢
    cases ha : (a.id == id) with
    | true =>
      rw [List.cons_append]
      rw [List.find?_cons, ha] at h ⊢
      exact h
    | false =>
      rw [List.cons_append]
      rw [List.find?_cons, ha] at h ⊢
      exact ih h

lemma lookupNode_append_none (pos t : List WordNode) (id : String)
    (h : lookupNode pos id = none) : lookupNode (pos ++ t) id = lookupNode t id := by
  induction pos with
  | nil => rfl
  | cons a pos ih =>
    unfold lookupNode at h ih ⊢
    cases ha : (a.id == id) with
    | true =>
      rw [List.find?_cons, ha] at h
      exact absurd h (by simp)
    | false =>
      rw [List.find?_cons, ha] at h
      rw [List.cons_append, List.find?_cons, ha]
      exact ih h

lemma processChildren_mem_preserves (ex : String → Option WordNode) (n d : Nat) (px py : ℝ) :
    ∀ (cs : List BackendWordNode) (k : Nat) (pos : List WordNode)
      (asg : Finset String) (q : List QEntry) (w : WordNode),
      w ∈ (processChildren ex n d px py cs k pos asg q).1 →
      w ∈ pos ∨ PreservesEx ex w := by
  intro cs
  induction cs with
  | nil => intro k pos asg q w hw; exact Or.inl hw
  | cons c cs ih =>
    intro k pos asg q w hw
    by_cases h : c.id ∈ asg
    · rw [processChildren, if_pos h] at hw
      exact ih k pos asg q w hw
    · rw [processChildren, if_neg h] at hw
      rcases ih _ _ _ _ _ hw with hmem | hpres
      · rcases List.mem_append.mp hmem with hl | hr
        · exact Or.inl hl
        · refine Or.inr ?_
          rw [List.mem_singleton.mp hr]
          intro e he
          simp only at he
          simp [he]
      · exact Or.inr hpres

lemma bfsLoopF_mem_preserves (nodes : List BackendWordNode) (ex : String → Option WordNode) :
    ∀ (fuel : Nat) (q : List QEntry) (pos : List WordNode) (asg : Finset String) (w : WordNode),
      w ∈ (bfsLoopF nodes ex fuel q pos asg).1 → w ∈ pos ∨ PreservesEx ex w := by
  intro fuel
  induction fuel with
  | zero => intro q pos asg w hw; cases q <;> exact Or.inl hw
  | succ fuel ih =>
    intro q pos asg w hw
    cases q with
    | nil => exact Or.inl hw
    | cons e rest =>
      rw [bfsLoopF] at hw
      rcases ih _ _ _ _ hw with hmem | hpres
      · exact processChildren_mem_preserves ex _ _ _ _ _ _ _ _ _ _ hmem
      · exact Or.inr hpres

lemma missedLoop_mem_preserves (ex : String → Option WordNode) (rand : Nat → ℝ) :
    ∀ (ns : List BackendWordNode) (pos : List WordNode) (asg : Finset String) (k : Nat)
      (w : WordNode),
      w ∈ missedLoop ex rand ns pos asg k → w ∈ pos ∨ PreservesEx ex w := by
  intro ns
  induction ns with
  | nil => intro pos asg k w hw; exact Or.inl hw
  | cons n ns ih =>
    intro pos asg k w hw
    by_cases h : n.id ∈ asg
    · rw [missedLoop, if_pos h] at hw
      exact ih pos asg k w hw
    · cases hex : ex n.id with
      | some ww =>
        rw [missedLoop, if_neg h, hex] at hw
        rcases ih _ _ _ _ hw with hmem | hpres
        · rcases List.mem_append.mp hmem with hl | hr
          · exact Or.inl hl
          · refine Or.inr ?_
            rw [List.mem_singleton.mp hr]
            intro e he
            simp only at he
            rw [hex] at he
            cases he
            exact ⟨rfl, rfl⟩
        · exact Or.inr hpres
      | none =>
        rw [missedLoop, if_neg h, hex] at hw
        rcases ih _ _ _ _ hw with hmem | hpres
        · rcases List.mem_append.mp hmem with hl | hr
          · exact Or.inl hl
          · refine Or.inr ?_
            rw [List.mem_singleton.mp hr]
            intro e he
            simp only at he
            rw [hex] at he
            cases he
        · exact Or.inr hpres

lemma noRootLoop_mem_preserves (ex : String → Option WordNode) :
    ∀ (ns : List BackendWordNode) (curX : ℝ) (w : WordNode),
      w ∈ noRootLoop ex ns curX → PreservesEx ex w := by
  intro ns
  induction ns with
  | nil => intro curX w hw; cases hw
  | cons n ns ih =>
    intro curX w hw
    rw [noRootLoop] at hw
    rcases List.mem_cons.mp hw with hl | hr
    · subst hl
      intro e he
      simp only at he
      rw [he]
      exact ⟨rfl, rfl⟩
    · exact ih _ _ hr

lemma processChildren_covered (ex : String → Option WordNode) (n d : Nat) (px py : ℝ) :
    ∀ (cs : List BackendWordNode) (k : Nat) (pos : List WordNode)
      (asg : Finset String) (q : List QEntry),
      coveredBy pos asg →
      coveredBy (processChildren ex n d px py cs k pos asg q).1
        (processChildren ex n d px py cs k pos asg q).2.1 := by
  intro cs
  induction cs with
  | nil => intro k pos asg q hcov; exact hcov
  | cons c cs ih =>
    intro k pos asg q hcov
    by_cases h : c.id ∈ asg
    · rw [processChildren, if_pos h]
      exact ih k pos asg q hcov
    · rw [processChildren, if_neg h]
      refine ih _ _ _ _ ?_
      intro id hid
      rcases Finset.mem_insert.mp hid with rfl | hold
      · exact ⟨_, List.mem_append_right _ (List.mem_singleton_self _), rfl⟩
      · obtain ⟨w, hw, hwid⟩ := hcov id hold
        exact ⟨w, List.mem_append_left _ hw, hwid⟩

lemma bfsLoopF_covered (nodes : List BackendWordNode) (ex : String → Option WordNode) :
    ∀ (fuel : Nat) (q : List QEntry) (pos : List WordNode) (asg : Finset String),
      coveredBy pos asg →
      coveredBy (bfsLoopF nodes ex fuel q pos asg).1 (bfsLoopF nodes ex fuel q pos asg).2 := by
  intro fuel
  induction fuel with
  | zero => intro q pos asg h; cases q <;> exact h
  | succ fuel ih =>
    intro q pos asg h
    cases q with
    | nil => exact h
    | cons e rest =>
      rw [bfsLoopF]
      exact ih _ _ _ (processChildren_covered ex _ _ _ _ _ _ _ _ _ h)

lemma missedLoop_mem_mono (ex : String → Option WordNode) (rand : Nat → ℝ)
    (ns : List BackendWordNode) (pos : List WordNode) (asg : Finset String) (k : Nat)
    (w : WordNode) (hw : w ∈ pos) : w ∈ missedLoop ex rand ns pos asg k := by
  have hfac := missedLoop_pos_factor ex rand ns pos [] asg k
  rw [List.append_nil] at hfac
  rw [hfac]
  exact List.mem_append_left _ hw

lemma missedLoop_total (ex : String → Option WordNode) (rand : Nat → ℝ) :
    ∀ (ns : List BackendWordNode) (pos : List WordNode) (asg : Finset String) (k : Nat),
      coveredBy pos asg →
      ∀ n ∈ ns, ∃ w ∈ missedLoop ex rand ns pos asg k, w.id = n.id := by
  intro ns
  induction ns with
  | nil => intro pos asg k _ n hn; cases hn
  | cons m ns ih =>
    intro pos asg k hcov n hn
    by_cases h : m.id ∈ asg
    · simp only [missedLoop, if_pos h]
      rcases List.mem_cons.mp hn with rfl | htail
      · obtain ⟨w, hw, hwid⟩ := hcov n.id h
        exact ⟨w, missedLoop_mem_mono ex rand ns pos asg k w hw, hwid⟩
      · exact ih pos asg k hcov n htail
    · have hcov2 : ∀ entry : WordNode, entry.id = m.id →
          coveredBy (pos ++ [entry]) (insert m.id asg) := by
        intro entry hid idv hidv
        rcases Finset.mem_insert.mp hidv with rfl | hold
        · exact ⟨entry, List.mem_append_right _ (List.mem_singleton_self _), hid⟩
        · obtain ⟨w, hw, hwid⟩ := hcov idv hold
          exact ⟨w, List.mem_append_left _ hw, hwid⟩
      cases hex : ex m.id with
      | some ww =>
        simp only [missedLoop, if_neg h, hex]
        rcases List.mem_cons.mp hn with rfl | htail
        · refine ⟨_, missedLoop_mem_mono ex rand ns _ _ k _
            (List.mem_append_right _ (List.mem_singleton_self _)), rfl⟩
        · exact ih _ _ _ (hcov2 _ rfl) n htail
      | none =>
        simp only [missedLoop, if_neg h, hex]
        rcases List.mem_cons.mp hn with rfl | htail
        · refine ⟨_, missedLoop_mem_mono ex rand ns _ _ _ _
            (List.mem_append_right _ (List.mem_singleton_self _)), rfl⟩
        · exact ih _ _ _ (hcov2 _ rfl) n htail

lemma noRootLoop_total (ex : String → Option WordNode) :
    ∀ (ns : List BackendWordNode) (curX : ℝ),
      ∀ n ∈ ns, ∃ w ∈ noRootLoop ex ns curX, w.id = n.id := by
  intro ns
  induction ns with
  | nil => intro curX n hn; cases hn
  | cons m ns ih =>
    intro curX n hn
    rw [noRootLoop]
    rcases List.mem_cons.mp hn with rfl | htail
    · exact ⟨_, List.mem_cons_self _ _, rfl⟩
    · obtain ⟨w, hw, hwid⟩ := ih (curX + 100) n htail
      exact ⟨w, List.mem_cons_of_mem _ hw, hwid⟩

lemma bfsLoopF_snd (nodes : List BackendWordNode) (ex1 ex2 : String → Option WordNode) :
    ∀ (fuel : Nat) (q : List QEntry) (pos1 pos2 : List WordNode) (asg : Finset String),
      (bfsLoopF nodes ex1 fuel q pos1 asg).2 = (bfsLoopF nodes ex2 fuel q pos2 asg).2 := by
  intro fuel
  induction fuel with
  | zero => intro q pos1 pos2 asg; cases q <;> rfl
  | succ fuel ih =>
    intro q pos1 pos2 asg
    cases q with
    | nil => rfl
    | cons e rest =>
      rw [bfsLoopF, bfsLoopF]
      have hsnd := processChildren_snd ex1 ex2
        ((nodes.filter fun n => parentEq n.parent_id e.nodeId).length) e.depth
        e.parentX e.parentY (nodes.filter fun n => parentEq n.parent_id e.nodeId)
        0 pos1 pos2 asg []
      rw [hsnd]
      exact ih _ _ _ _

lemma missedLoop_rand_indep (ex : String → Option WordNode) (rand1 rand2 : Nat → ℝ) :
    ∀ (ns : List BackendWordNode) (pos : List WordNode) (asg : Finset String) (k1 k2 : Nat),
      (∀ n ∈ ns, n.id ∈ asg ∨ (ex n.id).isSome) →
      missedLoop ex rand1 ns pos asg k1 = missedLoop ex rand2 ns pos asg k2 := by
  intro ns
  induction ns with
  | nil => intro pos asg k1 k2 _; rfl
  | cons m ns ih =>
    intro pos asg k1 k2 hcov
    by_cases h : m.id ∈ asg
    · rw [missedLoop, if_pos h, missedLoop, if_pos h]
      exact ih pos asg k1 k2 fun n hn => hcov n (List.mem_cons_of_mem _ hn)
    · cases hex : ex m.id with
      | some ww =>
        rw [missedLoop, if_neg h, hex, missedLoop, if_neg h, hex]
        refine ih _ _ k1 k2 fun n hn => ?_
        rcases hcov n (List.mem_cons_of_mem _ hn) with hin | hsome
        · exact Or.inl (Finset.mem_insert_of_mem hin)
        · exact Or.inr hsome
      | none =>
        exfalso
        rcases hcov m (List.mem_cons_self _ _) with hin | hsome
        · exact h hin
        · rw [hex] at hsome; cases hsome

lemma processChildren_q_mem_mono (ex : String → Option WordNode) (n d : Nat) (px py : ℝ)
    (cs : List BackendWordNode) (k : Nat) (pos : List WordNode) (asg : Finset String)
    (q : List QEntry) (e : QEntry) (he : e ∈ q) :
    e ∈ (processChildren ex n d px py cs k pos asg q).2.2 := by
  have hfac := processChildren_q_factor ex n d px py cs k pos asg q []
  rw [List.append_nil] at hfac
  rw [hfac]
  exact List.mem_append_left _ he

lemma processChildren_lookup_frozen (ex : String → Option WordNode) (n d : Nat) (px py : ℝ) :
    ∀ (cs : List BackendWordNode) (k : Nat) (pos : List WordNode) (asg : Finset String)
      (q : List QEntry) (id : String) (w : WordNode),
      id ∈ asg → lookupNode pos id = some w →
      lookupNode (processChildren ex n d px py cs k pos asg q).1 id = some w := by
  intro cs
  induction cs with
  | nil => intro k pos asg q id w _ hl; exact hl
  | cons c cs ih =>
    intro k pos asg q id w hid hl
    by_cases h : c.id ∈ asg
    · simp only [processChildren, if_pos h]
      exact ih k pos asg q id w hid hl
    · simp only [processChildren, if_neg h]
      refine ih _ _ _ _ id w (Finset.mem_insert_of_mem hid) ?_
      exact lookupNode_append_left pos _ id w hl

lemma lookupNode_none_of_ids_in (pos : List WordNode) (asg : Finset String) (id : String)
    (hpos : ∀ w ∈ pos, w.id ∈ asg) (hid : id ∉ asg) : lookupNode pos id = none := by
  rw [lookupNode, List.find?_eq_none]
  intro w hw
  simp only [beq_iff_eq]
  intro hcontra
  exact hid (hcontra ▸ hpos w hw)

lemma processChildren_queue_entry (ex : String → Option WordNode) (n d : Nat) (px py : ℝ) :
    ∀ (cs : List BackendWordNode) (k j : Nat) (pos : List WordNode) (asg : Finset String)
      (q : List QEntry) (c : BackendWordNode),
      cs[k]? = some c →
      (((cs.take (k + 1)).map fun cc => cc.id).Nodup) →
      (∀ c' ∈ cs.take (k + 1), c'.id ∉ asg) →
      (⟨c.id, px + childOffsetX n (j + k) d, py + childOffsetY n (j + k), d + 1⟩ : QEntry) ∈
        (processChildren ex n d px py cs j pos asg q).2.2 := by
  intro cs
  induction cs with
  | nil => intro k j pos asg q c hc; cases k <;> cases hc
  | cons c0 cs ih =>
    intro k j pos asg q c hc hnodup hfresh
    have hc0 : c0.id ∉ asg := hfresh c0 (by
      rw [List.take_succ_cons]
      exact List.mem_cons_self _ _)
    cases k with
    | zero =>
      rw [List.getElem?_cons_zero] at hc
      cases hc
      simp only [processChildren, if_neg hc0, Nat.add_zero]
      exact processChildren_q_mem_mono ex n d px py cs (j + 1) _ _ _ _
        (List.mem_append_right _ (List.mem_singleton_self _))
    | succ k =>
      rw [List.getElem?_cons_succ] at hc
      rw [List.take_succ_cons] at hnodup hfresh
      simp only [List.map_cons, List.nodup_cons] at hnodup
      simp only [processChildren, if_neg hc0]
      have hfresh2 : ∀ c' ∈ cs.take (k + 1), c'.id ∉ insert c0.id asg := by
        intro c' hc' hcontra
        rcases Finset.mem_insert.mp hcontra with heq | hmem
        · exact hnodup.1 (heq ▸ List.mem_map_of_mem (fun cc => cc.id) hc')
        · exact hfresh c' (List.mem_cons_of_mem _ hc') hmem
      have harith : j + (k + 1) = j + 1 + k := by omega
      rw [harith]
      exact ih k (j + 1) _ _ _ c hc hnodup.2 hfresh2

lemma processChildren_lookup_fresh (ex : String → Option WordNode) (n d : Nat) (px py : ℝ) :
    ∀ (cs : List BackendWordNode) (k j : Nat) (pos : List WordNode) (asg : Finset String)
      (q : List QEntry) (c : BackendWordNode),
      cs[k]? = some c →
      (((cs.take (k + 1)).map fun cc => cc.id).Nodup) →
      (∀ c' ∈ cs.take (k + 1), c'.id ∉ asg) →
      ex c.id = none →
      (∀ w ∈ pos, w.id ∈ asg) →
      lookupNode (processChildren ex n d px py cs j pos asg q).1 c.id =
        some ⟨c.id, c.word, c.parent_id,
          px + childOffsetX n (j + k) d, py + childOffsetY n (j + k)⟩ := by
  intro cs
  induction cs with
  | nil => intro k j pos asg q c hc; cases k <;> cases hc
  | cons c0 cs ih =>
    intro k j pos asg q c hc hnodup hfresh hex hpos
    have hc0 : c0.id ∉ asg := hfresh c0 (by
      rw [List.take_succ_cons]
      exact List.mem_cons_self _ _)
    cases k with
    | zero =>
      rw [List.getElem?_cons_zero] at hc
      cases hc
      simp only [processChildren, if_neg hc0, Nat.add_zero, hex]
      refine processChildren_lookup_frozen ex n d px py cs (j + 1) _ _ _ _ _
        (Finset.mem_insert_self _ _) ?_
      rw [lookupNode_append_none pos _ _ (lookupNode_none_of_ids_in pos asg _ hpos hc0)]
      simp [lookupNode]
    | succ k =>
      rw [List.getElem?_cons_succ] at hc
      rw [List.take_succ_cons] at hnodup hfresh
      simp only [List.map_cons, List.nodup_cons] at hnodup
      simp only [processChildren, if_neg hc0]
      have hfresh2 : ∀ c' ∈ cs.take (k + 1), c'.id ∉ insert c0.id asg := by
        intro c' hc' hcontra
        rcases Finset.mem_insert.mp hcontra with heq | hmem
        · exact hnodup.1 (heq ▸ List.mem_map_of_mem (fun cc => cc.id) hc')
        · exact hfresh c' (List.mem_cons_of_mem _ hc') hmem
      have harith : j + (k + 1) = j + 1 + k := by omega
      rw [harith]
      refine ih k (j + 1) _ _ _ c hc hnodup.2 hfresh2 hex ?_
      intro w hw
      rcases List.mem_append.mp hw with hl | hr
      · exact Finset.mem_insert_of_mem (hpos w hl)
      · rw [List.mem_singleton.mp hr]
        exact Finset.mem_insert_self _ _

lemma processChildren_asg_subset (ex : String → Option WordNode) (n d : Nat) (px py : ℝ) :
    ∀ (cs : List BackendWordNode) (k : Nat) (pos : List WordNode) (asg : Finset String)
      (q : List QEntry), asg ⊆ (processChildren ex n d px py cs k pos asg q).2.1 := by
  intro cs
  induction cs with
  | nil => intro k pos asg q; exact Finset.Subset.refl _
  | cons c cs ih =>
    intro k pos asg q
    by_cases h : c.id ∈ asg
    · simp only [processChildren, if_pos h]
      exact ih k pos asg q
    · simp only [processChildren, if_neg h]
      exact (Finset.subset_insert _ _).trans (ih _ _ _ _)

lemma processChildren_measure (ex : String → Option WordNode) (n d : Nat) (px py : ℝ)
    (F : Finset String) :
    ∀ (cs : List BackendWordNode) (k : Nat) (pos : List WordNode) (asg : Finset String)
      (q : List QEntry), (∀ c ∈ cs, c.id ∈ F) →
      (processChildren ex n d px py cs k pos asg q).2.2.length +
        (F \ (processChildren ex n d px py cs k pos asg q).2.1).card ≤
      q.length + (F \ asg).card := by
  intro cs
  induction cs with
  | nil => intro k pos asg q _; exact le_refl _
  | cons c cs ih =>
    intro k pos asg q hcs
    by_cases h : c.id ∈ asg
    · simp only [processChildren, if_pos h]
      exact ih k pos asg q fun c' hc' => hcs c' (List.mem_cons_of_mem _ hc')
    · simp only [processChildren, if_neg h]
      have hmem : c.id ∈ F \ asg := Finset.mem_sdiff.mpr ⟨hcs c (List.mem_cons_self _ _), h⟩
      have hcard : (F \ insert c.id asg).card + 1 = (F \ asg).card := by
        rw [Finset.sdiff_insert, Finset.card_erase_of_mem hmem]
        have hpos := Finset.card_pos.mpr ⟨c.id, hmem⟩
        omega
      refine le_trans (ih (k + 1) _ _ _ fun c' hc' => hcs c' (List.mem_cons_of_mem _ hc')) ?_
      rw [List.length_append]
      simp only [List.length_cons, List.length_nil]
      omega

lemma bfsLoopF_fuel_stable (nodes : List BackendWordNode) (ex : String → Option WordNode) :
    ∀ (fuel1 fuel2 : Nat) (q : List QEntry) (pos : List WordNode) (asg : Finset String),
      2 * (((nodes.map fun n => n.id).toFinset) \ asg).card + q.length ≤ fuel1 →
      2 * (((nodes.map fun n => n.id).toFinset) \ asg).card + q.length ≤ fuel2 →
      bfsLoopF nodes ex fuel1 q pos asg = bfsLoopF nodes ex fuel2 q pos asg := by
  intro fuel1
  induction fuel1 with
  | zero =>
    intro fuel2 q pos asg h1 _
    have : q = [] := List.length_eq_zero.mp (by omega)
    subst this
    cases fuel2 <;> rfl
  | succ fuel1 ih =>
    intro fuel2 q pos asg h1 h2
    cases q with
    | nil => cases fuel2 <;> rfl
    | cons e rest =>
      cases fuel2 with
      | zero =>
        simp only [List.length_cons] at h2
        omega
      | succ fuel2 =>
        simp only [bfsLoopF]
        have hchild : ∀ c ∈ nodes.filter (fun n => parentEq n.parent_id e.nodeId),
            c.id ∈ (nodes.map fun n => n.id).toFinset := by
          intro c hc
          exact List.mem_toFinset.mpr (List.mem_map_of_mem _ (List.mem_of_mem_filter hc))
        have hmeas := processChildren_measure ex
          ((nodes.filter fun n => parentEq n.parent_id e.nodeId).length) e.depth
          e.parentX e.parentY ((nodes.map fun n => n.id).toFinset)
          (nodes.filter fun n => parentEq n.parent_id e.nodeId) 0 pos asg [] hchild
        simp only [List.length_nil, Nat.zero_add] at hmeas
        have hsub := processChildren_asg_subset ex
          ((nodes.filter fun n => parentEq n.parent_id e.nodeId).length) e.depth
          e.parentX e.parentY (nodes.filter fun n => parentEq n.parent_id e.nodeId) 0 pos asg []
        have hmono : ((nodes.map fun n => n.id).toFinset \
            (processChildren ex ((nodes.filter fun n => parentEq n.parent_id e.nodeId).length)
              e.depth e.parentX e.parentY
              (nodes.filter fun n => parentEq n.parent_id e.nodeId) 0 pos asg []).2.1).card ≤
            ((nodes.map fun n => n.id).toFinset \ asg).card :=
          Finset.card_le_card (Finset.sdiff_subset_sdiff (Finset.Subset.refl _) hsub)
        refine ih fuel2 _ _ _ ?_ ?_ <;>
          · rw [List.length_append]
            simp only [List.length_cons] at h1 h2
            omega

/-- Adequacy of the fuel bound used by assignPositionsToNodes: starting from a
single queue entry, any fuel of at least `2 * nodes.length + 1` computes the
BFS loop's fixpoint, so the embedded bound is faithful to the unbounded JS loop. -/
lemma bfsLoopF_default_fuel_adequate (nodes : List BackendWordNode)
    (ex : String → Option WordNode) (e0 : QEntry) (pos : List WordNode)
    (asg : Finset String) (fuel : Nat) (h : 2 * nodes.length + 1 ≤ fuel) :
    bfsLoopF nodes ex fuel [e0] pos asg =
      bfsLoopF nodes ex (2 * nodes.length + 1) [e0] pos asg := by
  have hcard : (((nodes.map fun n => n.id).toFinset) \ asg).card ≤ nodes.length := by
    calc (((nodes.map fun n => n.id).toFinset) \ asg).card
        ≤ ((nodes.map fun n => n.id).toFinset).card :=
          Finset.card_le_card (Finset.sdiff_subset)
      _ ≤ (nodes.map fun n => n.id).length := List.toFinset_card_le _
      _ = nodes.length := List.length_map _ _
  exact bfsLoopF_fuel_stable nodes ex fuel (2 * nodes.length + 1) [e0] pos asg
    (by simp only [List.length_cons, List.length_nil]; omega)
    (by simp only [List.length_cons, List.length_nil]; omega)

/-! Claim theorems. -/

/-- C4: for every session whose startTime is set (a truthy, i.e. nonzero,
timestamp — the timer effect's guard ensures calculateTimeLeft only runs
then), the remaining time is `max(0, timeLimitSeconds - (now - startTime))`,
hence always nonnegative and nonincreasing in the observation instant. -/
theorem clock_remaining_spec (s time_limit now t1 t2 : ℚ) (hs : s ≠ 0) (ht : t1 ≤ t2) :
    remainingTime (some s) time_limit now = max 0 (time_limit - (now - s)) ∧
    0 ≤ remainingTime (some s) time_limit now ∧
    remainingTime (some s) time_limit t2 ≤ remainingTime (some s) time_limit t1 := by
  refine ⟨?_, le_max_left _ _, ?_⟩
  · simp [remainingTime, jsOrNum, hs]
  · simp only [remainingTime, jsOrNum, if_neg hs]
    exact max_le_max (le_refl 0) (by linarith)

/-- Witness for clock_remaining_spec at a concrete session: started at 100,
60-second limit, observed at 130 and 140. -/
theorem clock_remaining_spec_witness :
    remainingTime (some 100) 60 130 = max 0 (60 - (130 - 100)) ∧
    0 ≤ remainingTime (some 100) 60 130 ∧
    remainingTime (some 100) 60 140 ≤ remainingTime (some 100) 60 130 :=
  clock_remaining_spec 100 60 130 130 140 (by norm_num) (by norm_num)

/-- C9: in Gameboard's handleAddNode the moves counter is incremented by
exactly 1 iff the validation callback accepted the connection; a rejected
submission leaves nodes, edges, moves and the id counter unchanged. -/
theorem moves_increment_iff_accepted (nodes : List FlowNode) (edges : List FlowEdge)
    (moves idCounter : Nat) (valid : Bool) (label parentId : String) (r1 r2 : ℝ) :
    (handleAddNode nodes edges moves idCounter true label parentId r1 r2).2.2.1 = moves + 1 ∧
    handleAddNode nodes edges moves idCounter false label parentId r1 r2 =
      (nodes, edges, moves, idCounter) ∧
    ((handleAddNode nodes edges moves idCounter valid label parentId r1 r2).2.2.1 = moves + 1 ↔
      valid = true) := by
  refine ⟨by simp [handleAddNode], by simp [handleAddNode], ?_⟩
  cases valid
  · simp [handleAddNode]
  · simp [handleAddNode]

/-- C3: session expiry is one-directional and fires exactly once.  When the
clock guard passes and remaining time reaches 0, the timer effect flips
is_active from true to false; the effect never turns an inactive session
active again and its guarded setGameState call cannot fire once inactive; and
once inactive, handleAddConnection short-circuits with the guard error,
hands back the unchanged state, and issues no request. -/
theorem session_expiry_one_directional (gs : GameState) (now : ℚ) (sel : Option String)
    (word : String) (resp : BackendResp) (rand : Nat → ℝ) :
    (gs.is_active = true → jsFalsyNum gs.start_time = false → gs.time_limit_seconds ≠ 0 →
      remainingTime gs.start_time gs.time_limit_seconds now ≤ 0 →
      (timerEffect gs now).gameState.is_active = false ∧
        (timerEffect gs now).setInactiveFired = true) ∧
    ((timerEffect gs now).gameState.is_active = true → gs.is_active = true) ∧
    (gs.is_active = false →
      (timerEffect gs now).gameState = gs ∧
      (timerEffect gs now).setInactiveFired = false ∧
      handleAddConnection (some gs) sel word resp rand =
        { gameState := some gs, requestIssued := false, error := some guardMsg,
          newWord := word }) := by
  refine ⟨?_, ?_, ?_⟩
  · intro ha hf hl hr
    have hguard : (!gs.is_active || jsFalsyNum gs.start_time ||
        decide (gs.time_limit_seconds = 0)) = false := by
      rw [ha, hf]
      simp [hl]
    rw [timerEffect, if_neg (by simp [hguard])]
    have hfired : (decide (remainingTime gs.start_time gs.time_limit_seconds now ≤ 0) &&
        gs.is_active) = true := by
      rw [ha, decide_eq_true hr]
      rfl
    constructor
    · simp [calculateTimeLeft, hfired]
    · simp [calculateTimeLeft, hfired]
  · cases hga : gs.is_active with
    | true => intro _; rfl
    | false =>
      intro h
      exfalso
      rw [timerEffect, if_pos (by simp [hga])] at h
      simp only at h
      rw [hga] at h
      cases h
  · intro hin
    refine ⟨?_, ?_, ?_⟩
    · rw [timerEffect, if_pos (by simp [hin])]
    · rw [timerEffect, if_pos (by simp [hin])]
    · simp [handleAddConnection, hin]

/-- Witness for session_expiry_one_directional: an active session started at
100 with a 60-second limit observed at 200 flips to inactive with the guarded
call firing, and an inactive session is handed back unchanged with no request
issued. -/
theorem session_expiry_one_directional_witness :
    ((timerEffect gsActive 200).gameState.is_active = false ∧
      (timerEffect gsActive 200).setInactiveFired = true) ∧
    ((timerEffect gsInactive 200).gameState = gsInactive ∧
      (timerEffect gsInactive 200).setInactiveFired = false ∧
      handleAddConnection (some gsInactive) (some "s") "wave" (.err 400 "x") (fun _ => 0) =
        { gameState := some gsInactive, requestIssued := false, error := some guardMsg,
          newWord := "wave" }) :=
  ⟨(session_expiry_one_directional gsActive 200 none "" (.err 0 "") fun _ => 0).1
      rfl (by norm_num [gsActive, jsFalsyNum]) (by norm_num [gsActive])
      (by norm_num [gsActive, remainingTime, jsOrNum, max_le_iff]),
   (session_expiry_one_directional gsInactive 200 (some "s") "wave" (.err 400 "x")
      fun _ => 0).2.2 rfl⟩

/-- C8 (amended): a proposal rejected by the guard leaves the session exactly
unchanged and issues no request; a proposal rejected by the backend leaves
nodes, connections, score and all clock fields unchanged, and leaves is_active
unchanged as well except in the one case of a 400 response with detail
"Time limit exceeded", where is_active is set to false (mirroring expiry). -/
theorem rejection_preserves_state (gs : GameState) (sel : Option String) (word : String)
    (status : Nat) (detail : String) (resp : BackendResp) (rand : Nat → ℝ) :
    ((jsFalsyStr sel || (jsTrim word == "") || !gs.is_active) = true →
      handleAddConnection (some gs) sel word resp rand =
        { gameState := some gs, requestIssued := false, error := some guardMsg,
          newWord := word }) ∧
    ((jsFalsyStr sel || (jsTrim word == "") || !gs.is_active) = false →
      ∃ gs2, (handleAddConnection (some gs) sel word (.err status detail) rand).gameState
          = some gs2 ∧
        (handleAddConnection (some gs) sel word (.err status detail) rand).requestIssued
          = true ∧
        gs2.nodes = gs.nodes ∧ gs2.connections = gs.connections ∧ gs2.score = gs.score ∧
        gs2.start_time = gs.start_time ∧
        gs2.time_limit_seconds = gs.time_limit_seconds ∧
        (¬(status = 400 ∧ detail = "Time limit exceeded") → gs2 = gs) ∧
        (status = 400 → detail = "Time limit exceeded" →
          gs2 = { gs with is_active := false })) := by
  constructor
  · intro hguard
    simp [handleAddConnection, hguard]
  · intro hguard
    have h1 : jsFalsyStr sel = false := by
      cases hb : jsFalsyStr sel with
      | false => rfl
      | true => rw [hb] at hguard; simp at hguard
    have h2 : (jsTrim word == "") = false := by
      cases hb : (jsTrim word == "") with
      | false => rfl
      | true => rw [hb] at hguard; simp at hguard
    have h3 : gs.is_active = true := by
      cases hb : gs.is_active with
      | true => rfl
      | false => rw [hb] at hguard; simp at hguard
    by_cases hcase : status = 400 ∧ detail = "Time limit exceeded"
    · refine ⟨{ gs with is_active := false }, ?_, ?_, rfl, rfl, rfl, rfl, rfl,
        fun hnot => absurd hcase hnot, fun _ _ => rfl⟩
      · simp [handleAddConnection, h1, h2, h3, hcase.1, hcase.2]
      · simp [handleAddConnection, h1, h2, h3]
    · refine ⟨gs, ?_, ?_, rfl, rfl, rfl, rfl, rfl, fun _ => rfl,
        fun ha hb => absurd ⟨ha, hb⟩ hcase⟩
      · simp [handleAddConnection, h1, h2, h3, hcase]
      · simp [handleAddConnection, h1, h2, h3]

/-- Witness for rejection_preserves_state: the guard path at an inactive
session, and the backend-rejection path at an active session with an
unrelated 418 error, which hands back the state unchanged. -/
theorem rejection_preserves_state_witness :
    (handleAddConnection (some gsInactive) (some "s") "wave" (.ok ⟨"g","p","s","t",60,some 100,[],[],0,true⟩) (fun _ => 0) =
      { gameState := some gsInactive, requestIssued := false, error := some guardMsg,
        newWord := "wave" }) ∧
    (∃ gs2, (handleAddConnection (some gsActive) (some "s") "wave" (.err 418 "nope") (fun _ => 0)).gameState
        = some gs2 ∧
      (handleAddConnection (some gsActive) (some "s") "wave" (.err 418 "nope") (fun _ => 0)).requestIssued
        = true ∧
      gs2.nodes = gsActive.nodes ∧ gs2.connections = gsActive.connections ∧
      gs2.score = gsActive.score ∧ gs2.start_time = gsActive.start_time ∧
      gs2.time_limit_seconds = gsActive.time_limit_seconds ∧
      (¬(418 = 400 ∧ "nope" = "Time limit exceeded") → gs2 = gsActive) ∧
      (418 = 400 → "nope" = "Time limit exceeded" →
        gs2 = { gsActive with is_active := false })) :=
  ⟨(rejection_preserves_state gsInactive (some "s") "wave" 0 ""
      (.ok ⟨"g","p","s","t",60,some 100,[],[],0,true⟩) fun _ => 0).1
      (by simp [gsInactive]),
   (rejection_preserves_state gsActive (some "s") "wave" 418 "nope"
      (.err 418 "nope") fun _ => 0).2 (by decide)⟩

/-- Counterexample to C8 as stated: a connection proposal rejected by the
backend with 400 "Time limit exceeded" does NOT hand back an unchanged
session — is_active is flipped to false by the rejection handler. -/
theorem rejection_preserves_state_cx :
    ¬ (∀ (gs : GameState) (sel : Option String) (word : String) (status : Nat)
        (detail : String) (rand : Nat → ℝ),
        (handleAddConnection (some gs) sel word (.err status detail) rand).gameState
          = some gs) := by
  intro h
  have hinst := h gsActive (some "s") "wave" 400 "Time limit exceeded" fun _ => 0
  have heval : (handleAddConnection (some gsActive) (some "s") "wave"
      (.err 400 "Time limit exceeded") fun _ => 0).gameState
      = some { gsActive with is_active := false } := rfl
  rw [heval, Option.some.injEq] at hinst
  have hfalse := congrArg GameState.is_active hinst
  simp [gsActive] at hfalse

/-- C1 (amended): every non-root entry of the layout result preserves its
existingPositions coordinates verbatim, and nodes absent from
existingPositions receive computed coordinates; the root, however, is always
re-placed at the fixed anchor (NODE_AREA_WIDTH / 2, 50) without consulting
existingPositions.  Because that anchor is also what every previous layout
run assigned the root, an existingPositions map produced by a previous run
still yields a snapshot in which only the new node's position differs. -/
theorem layout_position_stability (nodes : List BackendWordNode)
    (ex : String → Option WordNode) (rand : Nat → ℝ) :
    (∀ w ∈ assignPositionsToNodes nodes ex rand,
      (∀ r, nodes.find? (fun n => jsFalsyStr n.parent_id) = some r → w.id ≠ r.id) →
      PreservesEx ex w) ∧
    (∀ r, nodes.find? (fun n => jsFalsyStr n.parent_id) = some r →
      lookupNode (assignPositionsToNodes nodes ex rand) r.id = some (rootEntry r)) := by
  constructor
  · intro w hw hroot
    cases hfind : nodes.find? (fun n => jsFalsyStr n.parent_id) with
    | none =>
      simp only [assignPositionsToNodes, hfind] at hw
      exact noRootLoop_mem_preserves ex nodes 50 w hw
    | some r =>
      simp only [assignPositionsToNodes, hfind] at hw
      rcases missedLoop_mem_preserves ex rand nodes _ _ 0 w hw with hmem | hpres
      · rcases bfsLoopF_mem_preserves nodes ex _ _ _ _ w hmem with hmem0 | hpres
        · exfalso
          have hwr : w.id = r.id := by
            rw [List.mem_singleton.mp hmem0]
            rfl
          exact hroot r hfind hwr
        · exact hpres
      · exact hpres
  · intro r hfind
    simp only [assignPositionsToNodes, hfind]
    have h1 : lookupNode [rootEntry r] r.id = some (rootEntry r) := by
      simp [lookupNode, rootEntry]
    have hfac := bfsLoopF_pos_factor nodes ex (2 * nodes.length + 1)
      [⟨r.id, NODE_AREA_WIDTH / 2, 50, 0⟩] [rootEntry r] [] {r.id}
    rw [List.append_nil] at hfac
    have h2 := lookupNode_append_left [rootEntry r]
      ((bfsLoopF nodes ex (2 * nodes.length + 1)
        [⟨r.id, NODE_AREA_WIDTH / 2, 50, 0⟩] [] {r.id}).1) r.id (rootEntry r) h1
    rw [← hfac] at h2
    have hfac2 := missedLoop_pos_factor ex rand nodes
      (bfsLoopF nodes ex (2 * nodes.length + 1) [⟨r.id, NODE_AREA_WIDTH / 2, 50, 0⟩]
        [rootEntry r] {r.id}).1 []
      (bfsLoopF nodes ex (2 * nodes.length + 1) [⟨r.id, NODE_AREA_WIDTH / 2, 50, 0⟩]
        [rootEntry r] {r.id}).2 0
    rw [List.append_nil] at hfac2
    rw [hfac2]
    exact lookupNode_append_left _ _ _ _ h2

/-- Witness for layout_position_stability: a root "r" with one child "c"
whose existing position is (7, 9); the child's entry preserves (7, 9) and
the root is looked up at the anchor. -/
theorem layout_position_stability_witness :
    PreservesEx
      (fun id => if id = "c" then
        some { id := "c", word := "cw", parent_id := some "r", x := 7, y := 9 } else none)
      { id := "c", word := "cw", parent_id := some "r", x := 7, y := 9 } ∧
    lookupNode (assignPositionsToNodes
        [⟨"r", "rw", none⟩, ⟨"c", "cw", some "r"⟩]
        (fun id => if id = "c" then
          some { id := "c", word := "cw", parent_id := some "r", x := 7, y := 9 } else none)
        (fun _ => 0)) "r" =
      some (rootEntry ⟨"r", "rw", none⟩) := by
  constructor
  · refine (layout_position_stability [⟨"r", "rw", none⟩, ⟨"c", "cw", some "r"⟩]
      (fun id => if id = "c" then
        some { id := "c", word := "cw", parent_id := some "r", x := 7, y := 9 } else none)
      (fun _ => 0)).1
      { id := "c", word := "cw", parent_id := some "r", x := 7, y := 9 } ?_ ?_
    · show _ ∈ assignPositionsToNodes _ _ _
      exact List.Mem.tail _ (List.Mem.head _)
    · intro r hr
      have : r = (⟨"r", "rw", none⟩ : BackendWordNode) := by
        have heq : ([⟨"r", "rw", none⟩, ⟨"c", "cw", some "r"⟩] :
            List BackendWordNode).find? (fun n => jsFalsyStr n.parent_id) =
            some ⟨"r", "rw", none⟩ := by decide
        rw [heq] at hr
        exact (Option.some.injEq _ _).mp hr.symm
      rw [this]
      decide
  · exact (layout_position_stability [⟨"r", "rw", none⟩, ⟨"c", "cw", some "r"⟩]
      (fun id => if id = "c" then
        some { id := "c", word := "cw", parent_id := some "r", x := 7, y := 9 } else none)
      (fun _ => 0)).2 ⟨"r", "rw", none⟩ (by decide)

/-- Counterexample to C1 as stated: the root is present in existingPositions
with coordinates (0, 0), yet the layout assigns it the anchor (250, 50) — a
node present in existingPositions does not always keep its coordinates. -/
theorem layout_position_stability_cx :
    ¬ (∀ (nodes : List BackendWordNode) (ex : String → Option WordNode)
        (rand : Nat → ℝ), ∀ w ∈ assignPositionsToNodes nodes ex rand,
        PreservesEx ex w) := by
  intro h
  have hmem : rootEntry ⟨"r", "rw", none⟩ ∈
      assignPositionsToNodes [⟨"r", "rw", none⟩]
        (fun id => if id = "r" then
          some { id := "r", word := "rw", parent_id := none, x := 0, y := 0 } else none)
        (fun _ => 0) := List.Mem.head _
  have hpres := h _ _ _ _ hmem
    { id := "r", word := "rw", parent_id := none, x := 0, y := 0 } rfl
  have hx : NODE_AREA_WIDTH / 2 = 0 := hpres.1
  norm_num [NODE_AREA_WIDTH] at hx

/-- C7: layout totality — for every input node set (with or without a
findable root, reachable or not), the returned record has an entry for every
input node id; in this real-valued model every entry's x and y are total
field values, so no position is ever missing. -/
theorem layout_totality (nodes : List BackendWordNode) (ex : String → Option WordNode)
    (rand : Nat → ℝ) :
    ∀ n ∈ nodes, ∃ w ∈ assignPositionsToNodes nodes ex rand, w.id = n.id := by
  intro n hn
  cases hfind : nodes.find? (fun nn => jsFalsyStr nn.parent_id) with
  | none =>
    simp only [assignPositionsToNodes, hfind]
    exact noRootLoop_total ex nodes 50 n hn
  | some r =>
    simp only [assignPositionsToNodes, hfind]
    refine missedLoop_total ex rand nodes _ _ 0 ?_ n hn
    refine bfsLoopF_covered nodes ex _ _ _ _ ?_
    intro id hid
    refine ⟨_, List.mem_singleton_self _, ?_⟩
    rcases Finset.mem_singleton.mp hid with rfl
    rfl

/-- Witness for layout_totality: both nodes of a two-node input (one of them
unreachable) receive entries. -/
theorem layout_totality_witness :
    (∃ w ∈ assignPositionsToNodes [⟨"r", "rw", none⟩, ⟨"b", "bw", some "z"⟩]
        (fun _ => none) (fun _ => 0), w.id = "b") ∧
    (∃ w ∈ assignPositionsToNodes [⟨"r", "rw", none⟩, ⟨"b", "bw", some "z"⟩]
        (fun _ => none) (fun _ => 0), w.id = "r") :=
  ⟨layout_totality [⟨"r", "rw", none⟩, ⟨"b", "bw", some "z"⟩] (fun _ => none)
      (fun _ => 0) ⟨"b", "bw", some "z"⟩ (by decide),
   layout_totality [⟨"r", "rw", none⟩, ⟨"b", "bw", some "z"⟩] (fun _ => none)
      (fun _ => 0) ⟨"r", "rw", none⟩ (by decide)⟩

/-- C2 (amended): the layout is independent of the Math.random() stream —
hence deterministic across runs — whenever every node is either assigned by
the BFS phase (i.e. reachable from the found root) or present in
existingPositions; this covers in particular every input with no findable
root (fully deterministic fallback).  Unreachable nodes absent from
existingPositions are instead placed at Math.random()-scaled coordinates, so
full determinism fails (see the counterexample). -/
theorem layout_deterministic_when_covered (nodes : List BackendWordNode)
    (ex : String → Option WordNode) (rand1 rand2 : Nat → ℝ)
    (hcov : ∀ n ∈ nodes, n.id ∈ bfsAssigned nodes ∨ (ex n.id).isSome) :
    assignPositionsToNodes nodes ex rand1 = assignPositionsToNodes nodes ex rand2 := by
  cases hfind : nodes.find? (fun nn => jsFalsyStr nn.parent_id) with
  | none => simp only [assignPositionsToNodes, hfind]
  | some r =>
    simp only [assignPositionsToNodes, hfind]
    refine missedLoop_rand_indep ex rand1 rand2 nodes _ _ 0 0 ?_
    intro n hn
    rcases hcov n hn with hin | hsome
    · left
      rw [bfsAssigned, hfind] at hin
      rwa [bfsLoopF_snd nodes ex (fun _ => none) (2 * nodes.length + 1)
        [⟨r.id, NODE_AREA_WIDTH / 2, 50, 0⟩] [rootEntry r] [rootEntry r] {r.id}]
    · right
      exact hsome

/-- Witness for layout_deterministic_when_covered: a root with one reachable
child, empty existingPositions, and two different random streams give the
same layout. -/
theorem layout_deterministic_when_covered_witness :
    assignPositionsToNodes [⟨"r", "rw", none⟩, ⟨"c", "cw", some "r"⟩]
      (fun _ => none) (fun _ => 0) =
    assignPositionsToNodes [⟨"r", "rw", none⟩, ⟨"c", "cw", some "r"⟩]
      (fun _ => none) (fun _ => 1) :=
  layout_deterministic_when_covered [⟨"r", "rw", none⟩, ⟨"c", "cw", some "r"⟩]
    (fun _ => none) (fun _ => 0) (fun _ => 1) (by decide)

/-- Counterexample to C2 as stated: with a root "r" and a node "b" whose
parent "z" does not exist (unreachable), two runs with different
Math.random() streams produce different position maps — the fallback for
unreachable nodes is `Math.random()`-based, not deterministic. -/
theorem layout_deterministic_cx :
    ¬ (∀ (nodes : List BackendWordNode) (ex : String → Option WordNode)
        (rand1 rand2 : Nat → ℝ),
        assignPositionsToNodes nodes ex rand1 = assignPositionsToNodes nodes ex rand2) := by
  intro h
  have hinst := h [⟨"r", "rw", none⟩, ⟨"b", "bw", some "z"⟩] (fun _ => none)
    (fun _ => 0) (fun _ => 1)
  have h1 : assignPositionsToNodes [⟨"r", "rw", none⟩, ⟨"b", "bw", some "z"⟩]
      (fun _ => none) (fun _ => 0) =
      [rootEntry ⟨"r", "rw", none⟩,
       { id := "b", word := "bw", parent_id := some "z",
         x := 0 * NODE_AREA_WIDTH, y := 0 * NODE_AREA_HEIGHT }] := rfl
  have h2 : assignPositionsToNodes [⟨"r", "rw", none⟩, ⟨"b", "bw", some "z"⟩]
      (fun _ => none) (fun _ => 1) =
      [rootEntry ⟨"r", "rw", none⟩,
       { id := "b", word := "bw", parent_id := some "z",
         x := 1 * NODE_AREA_WIDTH, y := 1 * NODE_AREA_HEIGHT }] := rfl
  rw [h1, h2] at hinst
  have hx := congrArg (fun l => (l.map WordNode.x).getLast?) hinst
  norm_num [NODE_AREA_WIDTH] at hx

/-- C10 (implicit): the BFS queue propagates the freshly computed
childX/childY, never the coordinates taken from existingPositions: the k-th
fresh child of a dequeued parent is pushed with exactly the computed offset
coordinates for every existingNodes map (even when it has an existing
position), and more generally the whole queue/assigned-set trajectory of the
child loop is independent of existingNodes and of the positioned-node
accumulator — so a new child is placed relative to where its parent would sit
in a fresh layout, not relative to the parent's preserved position. -/
theorem queue_propagates_computed_coords (ex1 ex2 : String → Option WordNode)
    (n d : Nat) (px py : ℝ) (cs : List BackendWordNode) (j k : Nat)
    (pos1 pos2 : List WordNode) (asg : Finset String) (q : List QEntry)
    (c : BackendWordNode) (hc : cs[k]? = some c)
    (hnodup : (((cs.take (k + 1)).map fun cc => cc.id).Nodup))
    (hfresh : ∀ c' ∈ cs.take (k + 1), c'.id ∉ asg) :
    (⟨c.id, px + childOffsetX n (j + k) d, py + childOffsetY n (j + k), d + 1⟩ : QEntry) ∈
      (processChildren ex1 n d px py cs j pos1 asg q).2.2 ∧
    (processChildren ex1 n d px py cs j pos1 asg q).2 =
      (processChildren ex2 n d px py cs j pos2 asg q).2 :=
  ⟨processChildren_queue_entry ex1 n d px py cs k j pos1 asg q c hc hnodup hfresh,
   processChildren_snd ex1 ex2 n d px py cs j pos1 pos2 asg q⟩

/-- Witness for queue_propagates_computed_coords: the single child "c" of a
parent at (250, 50), with an existingNodes map that does record a position
for "c", is still pushed with the computed coordinates. -/
theorem queue_propagates_computed_coords_witness :
    ((⟨"c", 250 + childOffsetX 1 (0 + 0) 0, 50 + childOffsetY 1 (0 + 0), 0 + 1⟩ : QEntry) ∈
      (processChildren
        (fun id => if id = "c" then
          some { id := "c", word := "cw", parent_id := some "r", x := 7, y := 9 } else none)
        1 0 250 50 [⟨"c", "cw", some "r"⟩] 0 [] {"r"} []).2.2) ∧
    (processChildren
        (fun id => if id = "c" then
          some { id := "c", word := "cw", parent_id := some "r", x := 7, y := 9 } else none)
        1 0 250 50 [⟨"c", "cw", some "r"⟩] 0 [] {"r"} []).2 =
      (processChildren (fun _ => none) 1 0 250 50 [⟨"c", "cw", some "r"⟩] 0 [] {"r"} []).2 :=
  queue_propagates_computed_coords
    (fun id => if id = "c" then
      some { id := "c", word := "cw", parent_id := some "r", x := 7, y := 9 } else none)
    (fun _ => none) 1 0 250 50 [⟨"c", "cw", some "r"⟩] 0 0 [] [] {"r"} []
    ⟨"c", "cw", some "r"⟩ (by decide) (by decide) (by decide)

/-- C5: child placement formula.  When the BFS dequeues entry `e` (carrying
the parent's computed coordinates and depth d), the k-th child (0-based, in
enumeration order) of the parent — among children whose ids are fresh and
pairwise distinct up to index k, as the tree invariants guarantee — that has
no existing position is placed at the parent's computed position plus
(cos(θ)·NODE_OFFSET_X·(d+1)·0.5, sin(θ)·NODE_OFFSET_Y·1.5) with
θ = π/(n+1)·(k+1) and n the total number of children, and this entry survives
unchanged to the end of the BFS loop. -/
theorem child_placement_formula (nodes : List BackendWordNode)
    (ex : String → Option WordNode) (fuel : Nat) (e : QEntry) (rest : List QEntry)
    (pos : List WordNode) (asg : Finset String) (k : Nat) (c : BackendWordNode)
    (hc : (nodes.filter fun nn => parentEq nn.parent_id e.nodeId)[k]? = some c)
    (hnodup : ((((nodes.filter fun nn => parentEq nn.parent_id e.nodeId).take (k + 1)).map
      fun cc => cc.id).Nodup))
    (hfresh : ∀ c' ∈ (nodes.filter fun nn => parentEq nn.parent_id e.nodeId).take (k + 1),
      c'.id ∉ asg)
    (hex : ex c.id = none)
    (hpos : ∀ w ∈ pos, w.id ∈ asg) :
    lookupNode (bfsLoopF nodes ex (fuel + 1) (e :: rest) pos asg).1 c.id =
      some { id := c.id, word := c.word, parent_id := c.parent_id,
             x := e.parentX + childOffsetX
               (nodes.filter fun nn => parentEq nn.parent_id e.nodeId).length k e.depth,
             y := e.parentY + childOffsetY
               (nodes.filter fun nn => parentEq nn.parent_id e.nodeId).length k } := by
  have hlk := processChildren_lookup_fresh ex
    (nodes.filter fun nn => parentEq nn.parent_id e.nodeId).length e.depth
    e.parentX e.parentY (nodes.filter fun nn => parentEq nn.parent_id e.nodeId)
    k 0 pos asg [] c hc hnodup hfresh hex hpos
  rw [Nat.zero_add] at hlk
  simp only [bfsLoopF]
  have hfac := bfsLoopF_pos_factor nodes ex fuel
    (rest ++ (processChildren ex
      (nodes.filter fun nn => parentEq nn.parent_id e.nodeId).length e.depth
      e.parentX e.parentY (nodes.filter fun nn => parentEq nn.parent_id e.nodeId)
      0 pos asg []).2.2)
    ((processChildren ex
      (nodes.filter fun nn => parentEq nn.parent_id e.nodeId).length e.depth
      e.parentX e.parentY (nodes.filter fun nn => parentEq nn.parent_id e.nodeId)
      0 pos asg []).1) []
    ((processChildren ex
      (nodes.filter fun nn => parentEq nn.parent_id e.nodeId).length e.depth
      e.parentX e.parentY (nodes.filter fun nn => parentEq nn.parent_id e.nodeId)
      0 pos asg []).2.1)
  rw [List.append_nil] at hfac
  rw [hfac]
  exact lookupNode_append_left _ _ _ _ hlk

/-- Witness for child_placement_formula: the single child "c" of the root
entry ("r" at (250, 50), depth 0) is placed at
(250 + childOffsetX 1 0 0, 50 + childOffsetY 1 0). -/
theorem child_placement_formula_witness :
    lookupNode (bfsLoopF [⟨"r", "rw", none⟩, ⟨"c", "cw", some "r"⟩] (fun _ => none)
        (0 + 1) [⟨"r", 250, 50, 0⟩] [rootEntry ⟨"r", "rw", none⟩] {"r"}).1 "c" =
      some { id := "c", word := "cw", parent_id := some "r",
             x := (250 : ℝ) + childOffsetX
               (([⟨"r", "rw", none⟩, ⟨"c", "cw", some "r"⟩] : List BackendWordNode).filter
                 fun nn => parentEq nn.parent_id (⟨"r", 250, 50, 0⟩ : QEntry).nodeId).length 0
               (⟨"r", 250, 50, 0⟩ : QEntry).depth,
             y := (50 : ℝ) + childOffsetY
               (([⟨"r", "rw", none⟩, ⟨"c", "cw", some "r"⟩] : List BackendWordNode).filter
                 fun nn => parentEq nn.parent_id (⟨"r", 250, 50, 0⟩ : QEntry).nodeId).length 0 } :=
  child_placement_formula [⟨"r", "rw", none⟩, ⟨"c", "cw", some "r"⟩] (fun _ => none)
    0 ⟨"r", 250, 50, 0⟩ [] [rootEntry ⟨"r", "rw", none⟩] {"r"} 0 ⟨"c", "cw", some "r"⟩
    (by decide) (by decide) (by decide) rfl (by decide)

lemma childOffsetX_three_zero : childOffsetX 3 0 0 = 25 * Real.sqrt 2 := by
  simp only [childOffsetX, NODE_OFFSET_X]
  norm_num
  ring

lemma childOffsetX_three_one : childOffsetX 3 1 0 = 0 := by
  simp only [childOffsetX, NODE_OFFSET_X]
  norm_num
  rw [show Real.pi / 4 * 2 = Real.pi / 2 by ring]
  exact Real.cos_pi_div_two

lemma childOffsetX_three_two : childOffsetX 3 2 0 = -(25 * Real.sqrt 2) := by
  simp only [childOffsetX, NODE_OFFSET_X]
  norm_num
  rw [show Real.pi / 4 * 3 = Real.pi - Real.pi / 4 by ring]
  rw [Real.cos_pi_sub, Real.cos_pi_div_four]
  ring

lemma childOffsetY_three_zero : childOffsetY 3 0 = 75 * (Real.sqrt 2 / 2) := by
  simp only [childOffsetY, NODE_OFFSET_Y]
  norm_num
  ring

lemma childOffsetY_three_one : childOffsetY 3 1 = 75 := by
  simp only [childOffsetY, NODE_OFFSET_Y]
  norm_num
  rw [show Real.pi / 4 * 2 = Real.pi / 2 by ring]
  rw [Real.sin_pi_div_two]
  ring

lemma childOffsetY_three_two : childOffsetY 3 2 = 75 * (Real.sqrt 2 / 2) := by
  simp only [childOffsetY, NODE_OFFSET_Y]
  norm_num
  rw [show Real.pi / 4 * 3 = Real.pi - Real.pi / 4 by ring]
  rw [Real.sin_pi_sub, Real.sin_pi_div_four]
  ring

lemma fanout_layout_eval (rid rword aid aword bid bword cid cword : String)
    (rand : Nat → ℝ)
    (h1 : aid ≠ rid) (h2 : bid ≠ rid) (h3 : cid ≠ rid)
    (h4 : bid ≠ aid) (h5 : cid ≠ aid) (h6 : cid ≠ bid) :
    assignPositionsToNodes
      [⟨rid, rword, none⟩, ⟨aid, aword, some rid⟩, ⟨bid, bword, some rid⟩,
       ⟨cid, cword, some rid⟩] (fun _ => none) rand =
    [rootEntry ⟨rid, rword, none⟩,
     ⟨aid, aword, some rid, NODE_AREA_WIDTH / 2 + childOffsetX 3 0 0, 50 + childOffsetY 3 0⟩,
     ⟨bid, bword, some rid, NODE_AREA_WIDTH / 2 + childOffsetX 3 1 0, 50 + childOffsetY 3 1⟩,
     ⟨cid, cword, some rid, NODE_AREA_WIDTH / 2 + childOffsetX 3 2 0, 50 + childOffsetY 3 2⟩] := by
  have hba : (rid == aid) = false := beq_eq_false_iff_ne.mpr (Ne.symm h1)
  have hbb : (rid == bid) = false := beq_eq_false_iff_ne.mpr (Ne.symm h2)
  have hbc : (rid == cid) = false := beq_eq_false_iff_ne.mpr (Ne.symm h3)
  simp [assignPositionsToNodes, bfsLoopF, processChildren, missedLoop,
        List.find?, List.filter, jsFalsyStr, parentEq,
        Finset.mem_insert, Finset.mem_singleton, beq_iff_eq, hba, hbb, hbc,
        h1, h2, h3, h4, h5, h6, Ne.symm h1, Ne.symm h2, Ne.symm h3,
        Ne.symm h4, Ne.symm h5, Ne.symm h6]

/-- C6: fan-out layout.  A root with exactly three children (created in
enumeration order, no existing positions) receives three pairwise-distinct,
non-collinear child positions, each strictly below (larger y than) the root's
position. -/
theorem fanout_layout (rid rword aid aword bid bword cid cword : String)
    (rand : Nat → ℝ)
    (h1 : aid ≠ rid) (h2 : bid ≠ rid) (h3 : cid ≠ rid)
    (h4 : bid ≠ aid) (h5 : cid ≠ aid) (h6 : cid ≠ bid) :
    ∃ wr wa wb wc : WordNode,
      lookupNode (assignPositionsToNodes
        [⟨rid, rword, none⟩, ⟨aid, aword, some rid⟩, ⟨bid, bword, some rid⟩,
         ⟨cid, cword, some rid⟩] (fun _ => none) rand) rid = some wr ∧
      lookupNode (assignPositionsToNodes
        [⟨rid, rword, none⟩, ⟨aid, aword, some rid⟩, ⟨bid, bword, some rid⟩,
         ⟨cid, cword, some rid⟩] (fun _ => none) rand) aid = some wa ∧
      lookupNode (assignPositionsToNodes
        [⟨rid, rword, none⟩, ⟨aid, aword, some rid⟩, ⟨bid, bword, some rid⟩,
         ⟨cid, cword, some rid⟩] (fun _ => none) rand) bid = some wb ∧
      lookupNode (assignPositionsToNodes
        [⟨rid, rword, none⟩, ⟨aid, aword, some rid⟩, ⟨bid, bword, some rid⟩,
         ⟨cid, cword, some rid⟩] (fun _ => none) rand) cid = some wc ∧
      (wa.x, wa.y) ≠ (wb.x, wb.y) ∧ (wa.x, wa.y) ≠ (wc.x, wc.y) ∧
      (wb.x, wb.y) ≠ (wc.x, wc.y) ∧
      ¬ collinear3 (wa.x, wa.y) (wb.x, wb.y) (wc.x, wc.y) ∧
      wr.y < wa.y ∧ wr.y < wb.y ∧ wr.y < wc.y := by
  rw [fanout_layout_eval rid rword aid aword bid bword cid cword rand h1 h2 h3 h4 h5 h6]
  have hba : (rid == aid) = false := beq_eq_false_iff_ne.mpr (Ne.symm h1)
  have hbb : (rid == bid) = false := beq_eq_false_iff_ne.mpr (Ne.symm h2)
  have hbc : (rid == cid) = false := beq_eq_false_iff_ne.mpr (Ne.symm h3)
  have hab : (aid == bid) = false := beq_eq_false_iff_ne.mpr (Ne.symm h4)
  have hac : (aid == cid) = false := beq_eq_false_iff_ne.mpr (Ne.symm h5)
  have hbcb : (bid == cid) = false := beq_eq_false_iff_ne.mpr (Ne.symm h6)
  refine ⟨rootEntry ⟨rid, rword, none⟩,
    ⟨aid, aword, some rid, NODE_AREA_WIDTH / 2 + childOffsetX 3 0 0, 50 + childOffsetY 3 0⟩,
    ⟨bid, bword, some rid, NODE_AREA_WIDTH / 2 + childOffsetX 3 1 0, 50 + childOffsetY 3 1⟩,
    ⟨cid, cword, some rid, NODE_AREA_WIDTH / 2 + childOffsetX 3 2 0, 50 + childOffsetY 3 2⟩,
    ?_, ?_, ?_, ?_, ?_, ?_, ?_, ?_, ?_, ?_, ?_⟩
  · simp [lookupNode, rootEntry]
  · simp [lookupNode, rootEntry, List.find?, hba]
  · simp [lookupNode, rootEntry, List.find?, hbb, hab]
  · simp [lookupNode, rootEntry, List.find?, hbc, hac, hbcb]
  · intro heq
    rw [Prod.mk.injEq] at heq
    have hy := heq.2
    rw [childOffsetY_three_zero, childOffsetY_three_one] at hy
    have hs2 : Real.sqrt 2 ^ 2 = 2 := Real.sq_sqrt (by norm_num)
    have hs1 : Real.sqrt 2 = 2 := by linarith
    rw [hs1] at hs2
    norm_num at hs2
  · intro heq
    rw [Prod.mk.injEq] at heq
    have hx := heq.1
    rw [childOffsetX_three_zero, childOffsetX_three_two] at hx
    have hs2 : Real.sqrt 2 ^ 2 = 2 := Real.sq_sqrt (by norm_num)
    have hs1 : Real.sqrt 2 = 0 := by linarith
    rw [hs1] at hs2
    norm_num at hs2
  · intro heq
    rw [Prod.mk.injEq] at heq
    have hy := heq.2
    rw [childOffsetY_three_one, childOffsetY_three_two] at hy
    have hs2 : Real.sqrt 2 ^ 2 = 2 := Real.sq_sqrt (by norm_num)
    have hs1 : Real.sqrt 2 = 2 := by linarith
    rw [hs1] at hs2
    norm_num at hs2
  · simp only [collinear3, childOffsetX_three_zero, childOffsetX_three_one,
      childOffsetX_three_two, childOffsetY_three_zero, childOffsetY_three_one,
      childOffsetY_three_two]
    intro hcross
    ring_nf at hcross
    have hs2 : Real.sqrt 2 ^ 2 = 2 := Real.sq_sqrt (by norm_num)
    have hs1 : Real.sqrt 2 = 1 := by linarith
    rw [hs1] at hs2
    norm_num at hs2
  · have hsp : (0 : ℝ) < Real.sqrt 2 := Real.sqrt_pos.mpr (by norm_num)
    simp only [rootEntry, childOffsetY_three_zero]
    linarith
  · simp only [rootEntry, childOffsetY_three_one]
    norm_num
  · have hsp : (0 : ℝ) < Real.sqrt 2 := Real.sqrt_pos.mpr (by norm_num)
    simp only [rootEntry, childOffsetY_three_two]
    linarith

/-- Witness for fanout_layout at the concrete ids "r", "a", "b", "c". -/
theorem fanout_layout_witness :
    ∃ wr wa wb wc : WordNode,
      lookupNode (assignPositionsToNodes
        [⟨"r", "rw", none⟩, ⟨"a", "aw", some "r"⟩, ⟨"b", "bw", some "r"⟩,
         ⟨"c", "cw", some "r"⟩] (fun _ => none) (fun _ => 0)) "r" = some wr ∧
      lookupNode (assignPositionsToNodes
        [⟨"r", "rw", none⟩, ⟨"a", "aw", some "r"⟩, ⟨"b", "bw", some "r"⟩,
         ⟨"c", "cw", some "r"⟩] (fun _ => none) (fun _ => 0)) "a" = some wa ∧
      lookupNode (assignPositionsToNodes
        [⟨"r", "rw", none⟩, ⟨"a", "aw", some "r"⟩, ⟨"b", "bw", some "r"⟩,
         ⟨"c", "cw", some "r"⟩] (fun _ => none) (fun _ => 0)) "b" = some wb ∧
      lookupNode (assignPositionsToNodes
        [⟨"r", "rw", none⟩, ⟨"a", "aw", some "r"⟩, ⟨"b", "bw", some "r"⟩,
         ⟨"c", "cw", some "r"⟩] (fun _ => none) (fun _ => 0)) "c" = some wc ∧
      (wa.x, wa.y) ≠ (wb.x, wb.y) ∧ (wa.x, wa.y) ≠ (wc.x, wc.y) ∧
      (wb.x, wb.y) ≠ (wc.x, wc.y) ∧
      ¬ collinear3 (wa.x, wa.y) (wb.x, wb.y) (wc.x, wc.y) ∧
      wr.y < wa.y ∧ wr.y < wb.y ∧ wr.y < wc.y :=
  fanout_layout "r" "rw" "a" "aw" "b" "bw" "c" "cw" (fun _ => 0)
    (by decide) (by decide) (by decide) (by decide) (by decide) (by decide)

end MindMap
